import Mathlib

/-!
Shallow embedding of the glslpp-rs lexical front end (src/token.rs and
src/lexer.rs).  The Rust iterators become pure functions on lists of
(character, location) pairs; the `Peekable` wrapper becomes head inspection
of the remaining list; cursor snapshot-and-restore becomes reuse of the
unconsumed list.  Machine integers: `u64` arithmetic of
`u64::from_str_radix` is modelled on `Nat` with an explicit `2 ^ 64` bound;
location counters (`u32` in Rust) are modelled as `Nat` (no claim concerns
their wrap-around).  The `f32` value of a float literal is abstracted as
the raw digit text (no claim inspects float values); everything else is
translated from the source.
-/

namespace Glslpp

/-- Location from src/token.rs: 1-based line, 0-based column (`pos`). -/
structure Location where
  line : Nat
  pos : Nat
deriving DecidableEq, Repr

/-- Punctuation kinds from src/token.rs. -/
inductive Punct where
  | AddAssign | SubAssign | MulAssign | DivAssign | ModAssign
  | LeftShiftAssign | RightShiftAssign | AndAssign | XorAssign | OrAssign
  | Increment | Decrement | LogicalAnd | LogicalOr | LogicalXor
  | LessEqual | GreaterEqual | EqualEqual | NotEqual | LeftShift | RightShift
  | LeftBrace | RightBrace | LeftParen | RightParen | LeftBracket | RightBracket
  | LeftAngle | RightAngle | Semicolon | Comma | Colon | Dot | Equal | Bang
  | Minus | Tilde | Plus | Star | Slash | Percent | Pipe | Caret | Ampersand
  | Question
deriving DecidableEq, Repr

/-- Errors from src/token.rs.  The Rust `UnexpectedToken` variant carries the
preprocessor-side token value; that payload is never constructed by the lexer
(the module under verification) and is omitted here. -/
inductive PreprocessorError where
  | IntegerOverflow
  | FloatParsingError
  | UnexpectedCharacter
  | UnexpectedToken
  | UnexpectedHash
  | UnexpectedNewLine
  | UnexpectedEndOfInput
  | TooFewDefineArguments
  | TooManyDefineArguments
  | ErrorDirective
  | DuplicateParameter
  | UnknownDirective
  | DefineRedefined
  | ElifOutsideOfBlock
  | ElseOutsideOfBlock
  | EndifOutsideOfBlock
  | ElifAfterElse
  | MoreThanOneElse
  | UnfinishedBlock
  | LineOverflow
  | NotSupported16BitLiteral
  | NotSupported64BitLiteral
  | MacroNotDefined
  | RecursionLimitReached
deriving DecidableEq, Repr

/-- Integer literal payload from src/token.rs (`value: u64`, kept in range by
the checked conversion `from_str_radix`). -/
structure Integer where
  value : Nat
  signed : Bool
  width : Int
deriving DecidableEq, Repr

/-- Float literal payload from src/token.rs.  The Rust `value: f32` is
abstracted as the raw literal text consumed by the lexer; no claim in this
development inspects the numeric value of a float. -/
structure Float where
  value : List Char
  width : Int
deriving DecidableEq, Repr

/-- The unit produced by every character-pipeline stage (src/lexer.rs
`type CharAndLocation = (char, Location)`). -/
abbrev CharLoc := Char × Location

/-- CharsAndLocation (src/lexer.rs lines 18-73): phases 4 and 5, newline
canonicalization plus line/column bookkeeping.  The Rust iterator state is
(remaining input, current location); this function returns the whole emitted
sequence from a given state. -/
def charsAndLocation : List Char → Location → List CharLoc
  | [], _ => []
  | '\n' :: '\r' :: rest, loc => ('\n', loc) :: charsAndLocation rest ⟨loc.line + 1, 0⟩
  | '\n' :: rest, loc => ('\n', loc) :: charsAndLocation rest ⟨loc.line + 1, 0⟩
  | '\r' :: '\n' :: rest, loc => ('\n', loc) :: charsAndLocation rest ⟨loc.line + 1, 0⟩
  | '\r' :: rest, loc => ('\n', loc) :: charsAndLocation rest ⟨loc.line + 1, 0⟩
  | c :: rest, loc => (c, loc) :: charsAndLocation rest ⟨loc.line, loc.pos + 1⟩

/-- SkipBackslashNewline (src/lexer.rs lines 81-112): phase 6, removal of
backslash-newline line continuations from the normalized stream. -/
def skipBackslashNewline : List CharLoc → List CharLoc
  | [] => []
  | ('\\', _) :: ('\n', _) :: rest => skipBackslashNewline rest
  | u :: rest => u :: skipBackslashNewline rest

/-- Sentinel (src/lexer.rs line 128) standing for a stripped comment. -/
def COMMENT_SENTINEL_VALUE : Char := '\r'

/-- Helper for ReplaceComments: the `//` loop (src/lexer.rs lines 153-160)
consumes up to, but not including, the next newline (save-point restore). -/
def dropLineComment (xs : List CharLoc) : List CharLoc :=
  xs.dropWhile (fun u => u.1 ≠ '\n')

/-- Helper for ReplaceComments: the `/*` loop (src/lexer.rs lines 165-174)
consumes through the terminating `*/`, or everything if unterminated. -/
def dropBlockComment (wasStar : Bool) : List CharLoc → List CharLoc
  | [] => []
  | (c, _) :: rest =>
    if wasStar ∧ c = '/' then rest else dropBlockComment (c = '*') rest

/-- ReplaceComments::next (src/lexer.rs lines 138-183).  On a `/` the code
looks ahead by a recursive call to itself (`self.next()`), then either
consumes a `//` or `/*` comment (emitting the sentinel at the original `/`)
or restores the save point and emits the `/` unchanged. -/
def replaceCommentsNext : List CharLoc → Option (CharLoc × List CharLoc)
  | [] => none
  | (c, l) :: rest =>
    if c ≠ '/' then
      some ((c, l), rest)
    else
      match replaceCommentsNext rest with
      | some (('/', _), rest1) =>
        some ((COMMENT_SENTINEL_VALUE, l), dropLineComment rest1)
      | some (('*', _), rest1) =>
        some ((COMMENT_SENTINEL_VALUE, l), dropBlockComment false rest1)
      | _ => some ((c, l), rest)

/-- Fuelled driver collecting every unit ReplaceComments emits. -/
def replaceCommentsF : Nat → List CharLoc → List CharLoc
  | 0, _ => []
  | n + 1, xs =>
    match replaceCommentsNext xs with
    | none => []
    | some (u, rest) => u :: replaceCommentsF n rest

/-- ReplaceComments as a whole-stream function: the fuel `xs.length` always
suffices because every emitted unit consumes at least one inner unit. -/
def replaceComments (xs : List CharLoc) : List CharLoc :=
  replaceCommentsF xs.length xs

/-- Token values produced by the lexer (src/lexer.rs lines 190-201).  The
Rust `String` identifier text is modelled as its list of characters. -/
inductive TokenValue where
  | Hash
  | NewLine
  | Ident (text : List Char)
  | Integer (i : Integer)
  | Float (f : Float)
  | Punct (p : Punct)
deriving DecidableEq, Repr

/-- Token record from src/lexer.rs lines 209-215. -/
structure Token where
  value : TokenValue
  location : Location
  leading_whitespace : Bool
  start_of_line : Bool
deriving DecidableEq, Repr

deriving instance DecidableEq for Except

/-- LexerItem = Result of a Token or an (error, location) pair. -/
abbrev LexerItem := Except (PreprocessorError × Location) Token

/-- Characters skipped as plain whitespace by Lexer::next (line 478). -/
def isSkipWs (c : Char) : Bool :=
  c == ' ' || c == '\t' || c == '\x0b' || c == '\x0c' || c == COMMENT_SENTINEL_VALUE

/-- Identifier start characters (Lexer::next line 494). -/
def isIdentStart (c : Char) : Bool :=
  ('a' ≤ c && c ≤ 'z') || ('A' ≤ c && c ≤ 'Z') || c == '_'

/-- Decimal digit characters. -/
def isDigit (c : Char) : Bool :=
  '0' ≤ c && c ≤ '9'

/-- Identifier continuation characters (Lexer::parse_identifier line 248). -/
def isIdentChar (c : Char) : Bool :=
  isIdentStart c || isDigit c

/-- Hexadecimal digit characters (Lexer::parse_number lines 319-322). -/
def isHexDigit (c : Char) : Bool :=
  isDigit c || ('a' ≤ c && c ≤ 'f') || ('A' ≤ c && c ≤ 'F')

/-- Lexer::parse_identifier (lines 243-260): greedily consume identifier
characters from the peeked stream, returning the text and the rest. -/
def Lexer.parse_identifier : List CharLoc → List Char × List CharLoc
  | [] => ([], [])
  | (c, l) :: rest =>
    if isIdentChar c then
      let p := Lexer.parse_identifier rest
      (c :: p.1, p.2)
    else
      ([], (c, l) :: rest)

/-- Lexer::consume_chars (lines 292-305). -/
def Lexer.consume_chars (filter : Char → Bool) : List CharLoc → List Char × List CharLoc
  | [] => ([], [])
  | (c, l) :: rest =>
    if filter c then
      let p := Lexer.consume_chars filter rest
      (c :: p.1, p.2)
    else
      ([], (c, l) :: rest)

/-- Lexer::parse_integer_signedness_suffix (lines 262-270): consumes a `u`/`U`
suffix if present; returns the `signed` flag and the rest of the stream. -/
def Lexer.parse_integer_signedness_suffix : List CharLoc → Bool × List CharLoc
  | ('u', _) :: rest => (false, rest)
  | ('U', _) :: rest => (false, rest)
  | xs => (true, xs)

/-- Lexer::parse_integer_width_suffix (lines 272-278): only peeks, never
consumes; `l`/`L` and `s`/`S` are rejected. -/
def Lexer.parse_integer_width_suffix (xs : List CharLoc) :
    Except PreprocessorError Int :=
  match xs with
  | ('l', _) :: _ => .error .NotSupported64BitLiteral
  | ('L', _) :: _ => .error .NotSupported64BitLiteral
  | ('s', _) :: _ => .error .NotSupported16BitLiteral
  | ('S', _) :: _ => .error .NotSupported16BitLiteral
  | _ => .ok 32

/-- Lexer::parse_float_width_suffix (lines 280-290): consumes `f`/`F`,
rejects `l`/`L` and `h`/`H` (peek only). -/
def Lexer.parse_float_width_suffix (xs : List CharLoc) :
    (Except PreprocessorError Int) × List CharLoc :=
  match xs with
  | ('l', _) :: _ => (.error .NotSupported64BitLiteral, xs)
  | ('L', _) :: _ => (.error .NotSupported64BitLiteral, xs)
  | ('h', _) :: _ => (.error .NotSupported16BitLiteral, xs)
  | ('H', _) :: _ => (.error .NotSupported16BitLiteral, xs)
  | ('f', _) :: rest => (.ok 32, rest)
  | ('F', _) :: rest => (.ok 32, rest)
  | _ => (.ok 32, xs)

/-- Digit value of a character as in Rust `char::to_digit`. -/
def charToDigit (c : Char) : Option Nat :=
  if '0' ≤ c ∧ c ≤ '9' then some (c.toNat - '0'.toNat)
  else if 'a' ≤ c ∧ c ≤ 'z' then some (c.toNat - 'a'.toNat + 10)
  else if 'A' ≤ c ∧ c ≤ 'Z' then some (c.toNat - 'A'.toNat + 10)
  else none

/-- Rust `char::to_digit(radix)`: the digit value must be below the radix. -/
def rustToDigit (c : Char) (radix : Nat) : Option Nat :=
  match charToDigit c with
  | some d => if d < radix then some d else none
  | none => none

/-- Accumulator loop of Rust `u64::from_str_radix`: each step multiplies by
the radix and adds the digit, failing on an invalid digit or if the value
leaves the u64 range. -/
def fromStrRadixGo (radix : Nat) : List Char → Nat → Option Nat
  | [], acc => some acc
  | c :: rest, acc =>
    match rustToDigit c radix with
    | none => none
    | some d =>
      let v := acc * radix + d
      if v < 2 ^ 64 then fromStrRadixGo radix rest v else none

/-- Rust `u64::from_str_radix` restricted to the strings the lexer builds
(no sign characters): empty input fails, otherwise the checked accumulation
runs over all characters. -/
def from_str_radix (s : List Char) (radix : Nat) : Option Nat :=
  if s = [] then none else fromStrRadixGo radix s 0

/-- Radix-detection stage of Lexer::parse_number (lines 314-334): for a
leading `0`, an `x`/`X` selects base 16 (consuming the hex digits), a digit
selects base 8; otherwise base 10.  Returns (radix, raw so far, rest). -/
def Lexer.parse_number_radix (first_char : Char) (xs0 : List CharLoc) :
    Nat × List Char × List CharLoc :=
  if first_char = '0' then
    match xs0 with
    | ('x', _) :: rest =>
      let p := Lexer.consume_chars isHexDigit rest
      (16, first_char :: p.1, p.2)
    | ('X', _) :: rest =>
      let p := Lexer.consume_chars isHexDigit rest
      (16, first_char :: p.1, p.2)
    | (c, _) :: _ => if isDigit c then (8, [first_char], xs0) else (10, [first_char], xs0)
    | [] => (10, [first_char], xs0)
  else (10, [first_char], xs0)

/-- Digits-and-dot stage of Lexer::parse_number (lines 336-347): consume the
remaining decimal digits and, if a `.` follows, consume it and switch to
float mode.  Returns (is_float, raw so far, rest). -/
def Lexer.parse_number_dot (first_char : Char) (raw0 : List Char)
    (xs1 : List CharLoc) : Bool × List Char × List CharLoc :=
  if first_char ≠ '.' then
    let p := Lexer.consume_chars isDigit xs1
    match p.2 with
    | ('.', _) :: r2 => (true, raw0 ++ p.1 ++ ['.'], r2)
    | _ => (false, raw0 ++ p.1, p.2)
  else (true, raw0, xs1)

/-- Lexer::parse_number (lines 307-381), with `first_char` already consumed
by the caller.  Returns the token value or error, and the rest of the
stream. -/
def Lexer.parse_number (first_char : Char) (xs0 : List CharLoc) :
    (Except PreprocessorError TokenValue) × List CharLoc :=
  let q := Lexer.parse_number_radix first_char xs0
  let integer_radix := q.1
  let t := Lexer.parse_number_dot first_char q.2.1 q.2.2
  let raw1 := t.2.1
  let xs2 := t.2.2
  if t.1 then
    -- Fractional digits and float suffix (lines 352-364).
    let p := Lexer.consume_chars isDigit xs2
    let raw2 := raw1 ++ p.1
    match Lexer.parse_float_width_suffix p.2 with
    | (.error e, r) => (.error e, r)
    | (.ok width, r) => (.ok (.Float { value := raw2, width := width }), r)
  else
    -- Suffixes, radix prefix strip and checked conversion (lines 366-379).
    let s := Lexer.parse_integer_signedness_suffix xs2
    match Lexer.parse_integer_width_suffix s.2 with
    | .error e => (.error e, s.2)
    | .ok width =>
      let raw2 := if integer_radix ≠ 10 then raw1.drop 1 else raw1
      match from_str_radix raw2 integer_radix with
      | none => (.error .IntegerOverflow, s.2)
      | some v => (.ok (.Integer { value := v, signed := s.1, width := width }), s.2)

/-- Punctuation priority table of Lexer::parse_punctuation (lines 390-448):
a match over the first three characters, longest entries first. -/
def maybe_punct (char0 char1 char2 : Char) : Option (Punct × Nat) :=
  match char0, char1, char2 with
  | '<', '<', '=' => some (.LeftShiftAssign, 3)
  | '<', '<', _ => some (.LeftShift, 2)
  | '<', '=', _ => some (.LessEqual, 2)
  | '<', _, _ => some (.LeftAngle, 1)
  | '>', '>', '=' => some (.RightShiftAssign, 3)
  | '>', '>', _ => some (.RightShift, 2)
  | '>', '=', _ => some (.GreaterEqual, 2)
  | '>', _, _ => some (.RightAngle, 1)
  | '+', '+', _ => some (.Increment, 2)
  | '+', '=', _ => some (.AddAssign, 2)
  | '+', _, _ => some (.Plus, 1)
  | '-', '-', _ => some (.Decrement, 2)
  | '-', '=', _ => some (.SubAssign, 2)
  | '-', _, _ => some (.Minus, 1)
  | '&', '&', _ => some (.LogicalAnd, 2)
  | '&', '=', _ => some (.AndAssign, 2)
  | '&', _, _ => some (.Ampersand, 1)
  | '|', '|', _ => some (.LogicalOr, 2)
  | '|', '=', _ => some (.OrAssign, 2)
  | '|', _, _ => some (.Pipe, 1)
  | '^', '^', _ => some (.LogicalXor, 2)
  | '^', '=', _ => some (.XorAssign, 2)
  | '^', _, _ => some (.Caret, 1)
  | '=', '=', _ => some (.EqualEqual, 2)
  | '=', _, _ => some (.Equal, 1)
  | '!', '=', _ => some (.NotEqual, 2)
  | '!', _, _ => some (.Bang, 1)
  | '*', '=', _ => some (.MulAssign, 2)
  | '*', _, _ => some (.Star, 1)
  | '/', '=', _ => some (.DivAssign, 2)
  | '/', _, _ => some (.Slash, 1)
  | '%', '=', _ => some (.ModAssign, 2)
  | '%', _, _ => some (.Percent, 1)
  | '(', _, _ => some (.LeftParen, 1)
  | ')', _, _ => some (.RightParen, 1)
  | '{', _, _ => some (.LeftBrace, 1)
  | '}', _, _ => some (.RightBrace, 1)
  | '[', _, _ => some (.LeftBracket, 1)
  | ']', _, _ => some (.RightBracket, 1)
  | '.', _, _ => some (.Dot, 1)
  | ',', _, _ => some (.Comma, 1)
  | ';', _, _ => some (.Semicolon, 1)
  | ':', _, _ => some (.Colon, 1)
  | '~', _, _ => some (.Tilde, 1)
  | '?', _, _ => some (.Question, 1)
  | _, _, _ => none

/-- Lexer::parse_punctuation (lines 383-463).  The three probe characters
default to NUL past the end of the stream.  On a table match the snapshot is
restored and exactly `size` characters are consumed; on `#` one character;
on failure the snapshot is NOT restored, so the three probed characters stay
consumed. -/
def punctProbe (xs : List CharLoc) (i : Nat) : Char :=
  ((xs[i]?).map Prod.fst).getD '\x00'

def Lexer.parse_punctuation (xs : List CharLoc) :
    (Except PreprocessorError TokenValue) × List CharLoc :=
  let char0 := punctProbe xs 0
  let char1 := punctProbe xs 1
  let char2 := punctProbe xs 2
  match maybe_punct char0 char1 char2 with
  | some (p, size) => (.ok (.Punct p), xs.drop size)
  | none =>
    if char0 = '#' then (.ok .Hash, xs.drop 1)
    else (.error .UnexpectedCharacter, xs.drop 3)

/-- Lexer state (src/lexer.rs lines 218-224); the `Peekable<ReplaceComments>`
iterator becomes the list of its remaining units. -/
structure Lexer where
  inner : List CharLoc
  leading_whitespace : Bool
  start_of_line : Bool
  last_location : Location
  had_comments : Bool
deriving DecidableEq, Repr

/-- Lexer::new (lines 227-236) on an already comment-stripped stream. -/
def Lexer.fromUnits (units : List CharLoc) : Lexer :=
  { inner := units
    leading_whitespace := true
    start_of_line := true
    last_location := ⟨0, 0⟩
    had_comments := false }

/-- Lexer::new (lines 227-236): seeds both flags true, location (0,0), and
stacks the three character stages under the tokenizer. -/
def Lexer.new (input : List Char) : Lexer :=
  Lexer.fromUnits (replaceComments (skipBackslashNewline (charsAndLocation input ⟨1, 0⟩)))

/-- Token dispatch of Lexer::next (lines 494-510) for a non-whitespace,
non-newline current character `c` peeked at location `loc` with `rest`
behind it: identifier, number, the dot special case, or punctuation. -/
def Lexer.tokenStep (c : Char) (loc : Location) (rest : List CharLoc) :
    (Except PreprocessorError TokenValue) × List CharLoc :=
  if isIdentStart c then
    let p := Lexer.parse_identifier ((c, loc) :: rest)
    (.ok (.Ident p.1), p.2)
  else if isDigit c then
    Lexer.parse_number c rest
  else if c = '.' then
    -- Dot special case (lines 501-508).
    match rest with
    | (d, _) :: _ =>
      if isDigit d then Lexer.parse_number '.' rest else (.ok (.Punct .Dot), rest)
    | [] => (.ok (.Punct .Dot), [])
  else
    Lexer.parse_punctuation ((c, loc) :: rest)

/-- Lexer::next (lines 469-537) with the state fields as explicit arguments
so that the whitespace-skipping `continue` loop is structural recursion on
the remaining units. -/
def Lexer.nextAux : List CharLoc → Bool → Bool → Location → Bool →
    Option (LexerItem × Lexer)
  | [], lw, sol, lastLoc, hadC =>
    -- End of input (lines 523-536): the trailing-newline hack.
    if sol then none
    else
      let l : Location := ⟨lastLoc.line, lastLoc.pos + 1⟩
      some (.ok { value := .NewLine, location := l, leading_whitespace := lw,
                  start_of_line := false },
            { inner := [], leading_whitespace := lw, start_of_line := true,
              last_location := l, had_comments := hadC })
  | (c, loc) :: rest, lw, sol, lastLoc, hadC =>
    if isSkipWs c then
      -- Whitespace / comment sentinel (lines 478-486).
      Lexer.nextAux rest true sol lastLoc (hadC || (c == COMMENT_SENTINEL_VALUE))
    else if c = '\n' then
      -- Newline token (lines 487-492).
      some (.ok { value := .NewLine, location := loc, leading_whitespace := lw,
                  start_of_line := sol },
            { inner := rest, leading_whitespace := true, start_of_line := true,
              last_location := loc, had_comments := hadC })
    else
      let pr : (Except PreprocessorError TokenValue) × List CharLoc :=
        Lexer.tokenStep c loc rest
      some (match pr.1 with
            | .ok v => .ok { value := v, location := loc, leading_whitespace := lw,
                             start_of_line := sol }
            | .error e => .error (e, loc),
            { inner := pr.2, leading_whitespace := false, start_of_line := false,
              last_location := loc, had_comments := hadC })

/-- Lexer::next as a step function on the lexer state. -/
def Lexer.next (st : Lexer) : Option (LexerItem × Lexer) :=
  Lexer.nextAux st.inner st.leading_whitespace st.start_of_line st.last_location
    st.had_comments

/-- Termination measure of the iteration: each produced item either consumes
input or flips `start_of_line` to true at end of input. -/
def lexMeasure (st : Lexer) : Nat :=
  2 * st.inner.length + (if st.start_of_line then 0 else 1)

/-- Fuelled driver collecting every item the Lexer yields. -/
def lexListF : Nat → Lexer → List LexerItem
  | 0, _ => []
  | n + 1, st =>
    match Lexer.next st with
    | none => []
    | some (item, st') => item :: lexListF n st'

/-- Whole token stream of a lexer state: the fuel `lexMeasure st` always
suffices (`Lexer.next` strictly decreases the measure). -/
def lexList (st : Lexer) : List LexerItem :=
  lexListF (lexMeasure st) st

/-- Token stream of a raw input string (list of its characters). -/
def lexString (input : List Char) : List LexerItem :=
  lexList (Lexer.new input)

/-- Location bookkeeping step claimed by the spec: after a newline unit the
line increments by exactly one and the column resets to 0; after any other
unit the column increments by one. -/
def locStep (u v : CharLoc) : Prop :=
  v.2 = if u.1 = '\n' then (⟨u.2.line + 1, 0⟩ : Location) else ⟨u.2.line, u.2.pos + 1⟩

/-! Helper structure for C7: a run of consecutive backslash-newline pairs. -/

/-- A block of consecutive line-continuation pairs prepended to a stream. -/
def contPairs : List (Location × Location) → List CharLoc → List CharLoc
  | [], rest => rest
  | (a, b) :: ps, rest => ('\\', a) :: ('\n', b) :: contPairs ps rest

/-- Unchecked value of a digit string for a radix (invalid digits count 0;
they are excluded separately). -/
def digitsValue (radix : Nat) (s : List Char) : Nat :=
  s.foldl (fun a c => a * radix + (rustToDigit c radix).getD 0) 0

/-- Spelling of each punctuation symbol, read off the fixed priority table
of Lexer::parse_punctuation (3-character compound assignments, 2-character
compounds, then single characters). -/
def punctChars : Punct → List Char
  | .LeftShiftAssign => ['<', '<', '=']
  | .RightShiftAssign => ['>', '>', '=']
  | .LeftShift => ['<', '<']
  | .LessEqual => ['<', '=']
  | .LeftAngle => ['<']
  | .RightShift => ['>', '>']
  | .GreaterEqual => ['>', '=']
  | .RightAngle => ['>']
  | .Increment => ['+', '+']
  | .AddAssign => ['+', '=']
  | .Plus => ['+']
  | .Decrement => ['-', '-']
  | .SubAssign => ['-', '=']
  | .Minus => ['-']
  | .LogicalAnd => ['&', '&']
  | .AndAssign => ['&', '=']
  | .Ampersand => ['&']
  | .LogicalOr => ['|', '|']
  | .OrAssign => ['|', '=']
  | .Pipe => ['|']
  | .LogicalXor => ['^', '^']
  | .XorAssign => ['^', '=']
  | .Caret => ['^']
  | .EqualEqual => ['=', '=']
  | .Equal => ['=']
  | .NotEqual => ['!', '=']
  | .Bang => ['!']
  | .MulAssign => ['*', '=']
  | .Star => ['*']
  | .DivAssign => ['/', '=']
  | .Slash => ['/']
  | .ModAssign => ['%', '=']
  | .Percent => ['%']
  | .LeftParen => ['(']
  | .RightParen => [')']
  | .LeftBrace => ['\x7b']
  | .RightBrace => ['\x7d']
  | .LeftBracket => ['[']
  | .RightBracket => [']']
  | .Dot => ['.']
  | .Comma => [',']
  | .Semicolon => [';']
  | .Colon => [':']
  | .Tilde => ['~']
  | .Question => ['?']

/-! Helper lemmas for the whole-stream drivers. -/

theorem dropBlockComment_length_le (b : Bool) (xs : List CharLoc) :
    (dropBlockComment b xs).length ≤ xs.length := by
  induction xs generalizing b with
  | nil => simp [dropBlockComment]
  | cons u rest ih =>
    obtain ⟨c, l⟩ := u
    simp only [dropBlockComment]
    split
    · simp
    · exact le_trans (ih _) (by simp)

theorem dropLineComment_length_le (xs : List CharLoc) :
    (dropLineComment xs).length ≤ xs.length :=
  (List.dropWhile_suffix _).sublist.length_le

theorem replaceCommentsNext_length_lt (xs : List CharLoc) (u : CharLoc)
    (rest : List CharLoc) (h : replaceCommentsNext xs = some (u, rest)) :
    rest.length < xs.length := by
  induction xs generalizing u rest with
  | nil => simp [replaceCommentsNext] at h
  | cons hd tl ih =>
    obtain ⟨c, l⟩ := hd
    simp only [replaceCommentsNext] at h
    split at h
    · cases h; simp
    · split at h
      · rename_i heq
        cases h
        have := ih _ _ heq
        calc (dropLineComment _).length ≤ _ := dropLineComment_length_le _
          _ < tl.length := this
          _ < tl.length + 1 := by omega
      · rename_i heq
        cases h
        have := ih _ _ heq
        calc (dropBlockComment false _).length ≤ _ := dropBlockComment_length_le _ _
          _ < tl.length := this
          _ < tl.length + 1 := by omega
      · cases h; simp

theorem replaceCommentsF_congr (n m : Nat) (xs : List CharLoc)
    (hn : xs.length ≤ n) (hm : xs.length ≤ m) :
    replaceCommentsF n xs = replaceCommentsF m xs := by
  induction n generalizing m xs with
  | zero =>
    have hx : xs = [] := by
      cases xs with
      | nil => rfl
      | cons a l => simp at hn
    subst hx
    cases m with
    | zero => rfl
    | succ m => simp [replaceCommentsF, replaceCommentsNext]
  | succ n ih =>
    cases m with
    | zero =>
      have hx : xs = [] := by
        cases xs with
        | nil => rfl
        | cons a l => simp at hm
      subst hx
      simp [replaceCommentsF, replaceCommentsNext]
    | succ m =>
      cases h : replaceCommentsNext xs with
      | none => simp [replaceCommentsF, h]
      | some p =>
        obtain ⟨u, rest⟩ := p
        have hlt := replaceCommentsNext_length_lt xs u rest h
        simp only [replaceCommentsF, h]
        rw [ih m rest (by omega) (by omega)]

/-- Unfolding equation for `replaceComments` in terms of one `next` step. -/
theorem replaceComments_eq (xs : List CharLoc) :
    replaceComments xs =
      match replaceCommentsNext xs with
      | none => []
      | some (u, rest) => u :: replaceComments rest := by
  unfold replaceComments
  cases h : replaceCommentsNext xs with
  | none =>
    cases xs with
    | nil => rfl
    | cons a l => simp only [replaceCommentsF, h]
  | some p =>
    obtain ⟨u, rest⟩ := p
    have hlt := replaceCommentsNext_length_lt xs u rest h
    cases xs with
    | nil => simp [replaceCommentsNext] at h
    | cons a l =>
      simp only [replaceCommentsF, h]
      rw [replaceCommentsF_congr l.length rest.length rest
        (by simp only [List.length_cons] at hlt; omega) le_rfl]


/-! Helper lemmas about the Normalizer. -/

theorem charsAndLocation_head_loc (input : List Char) (loc : Location) (u : CharLoc)
    (h : (charsAndLocation input loc).head? = some u) : u.2 = loc := by
  rw [charsAndLocation.eq_def] at h
  split at h <;> simp_all <;> (subst h; rfl)

theorem charsAndLocation_lf (rest : List Char) (loc : Location)
    (h : rest.head? ≠ some '\r') :
    charsAndLocation ('\n' :: rest) loc =
      ('\n', loc) :: charsAndLocation rest ⟨loc.line + 1, 0⟩ := by
  cases rest with
  | nil => rfl
  | cons c2 r =>
    have hc : c2 ≠ '\r' := by simpa using h
    rw [charsAndLocation.eq_def]
    split <;> try simp_all
    rename_i hn hr heq
    exact hn heq.1.symm

theorem charsAndLocation_cr (rest : List Char) (loc : Location)
    (h : rest.head? ≠ some '\n') :
    charsAndLocation ('\r' :: rest) loc =
      ('\n', loc) :: charsAndLocation rest ⟨loc.line + 1, 0⟩ := by
  cases rest with
  | nil => rfl
  | cons c2 r =>
    have hc : c2 ≠ '\n' := by simpa using h
    rw [charsAndLocation.eq_def]
    split <;> try simp_all
    rename_i hn hr heq
    exact hr heq.1.symm

theorem charsAndLocation_other (c : Char) (rest : List Char) (loc : Location)
    (h1 : c ≠ '\n') (h2 : c ≠ '\r') :
    charsAndLocation (c :: rest) loc =
      (c, loc) :: charsAndLocation rest ⟨loc.line, loc.pos + 1⟩ := by
  rw [charsAndLocation.eq_def]
  split <;> simp_all

theorem charsAndLocation_chain (input : List Char) (loc : Location) :
    List.Chain' locStep (charsAndLocation input loc) := by
  induction input, loc using charsAndLocation.induct with
  | case1 loc => simp [charsAndLocation]
  | case2 rest loc ih =>
    rw [charsAndLocation]
    rw [List.chain'_cons']
    exact ⟨fun u hu => by simp [locStep, charsAndLocation_head_loc _ _ _ hu], ih⟩
  | case3 rest loc h ih =>
    rw [charsAndLocation_lf rest loc (by cases rest with
      | nil => simp
      | cons a l => simpa using fun hr => h l (by simp [hr]))]
    rw [List.chain'_cons']
    exact ⟨fun u hu => by simp [locStep, charsAndLocation_head_loc _ _ _ hu], ih⟩
  | case4 rest loc ih =>
    rw [charsAndLocation]
    rw [List.chain'_cons']
    exact ⟨fun u hu => by simp [locStep, charsAndLocation_head_loc _ _ _ hu], ih⟩
  | case5 rest loc h ih =>
    rw [charsAndLocation_cr rest loc (by cases rest with
      | nil => simp
      | cons a l => simpa using fun hr => h l (by simp [hr]))]
    rw [List.chain'_cons']
    exact ⟨fun u hu => by simp [locStep, charsAndLocation_head_loc _ _ _ hu], ih⟩
  | case6 c rest loc h1 h2 h3 h4 ih =>
    rw [charsAndLocation_other c rest loc (fun hc => h2 hc) (fun hc => h4 hc)]
    rw [List.chain'_cons']
    refine ⟨fun u hu => ?_, ih⟩
    have := charsAndLocation_head_loc _ _ _ hu
    simp only [locStep, this]
    rw [if_neg (fun hc => h2 hc)]

/-- C5: the Normalizer turns each CRLF, LFCR, lone CR, or lone LF occurrence
into exactly one normalized newline unit located at the occurrence's first
raw character, incrementing the line by exactly 1 and resetting the column
to 0 for that occurrence (and advancing the column by 1 on every other
unit); every emitted unit is located at the state's current position. -/
theorem spec_c5 :
    (∀ (rest : List Char) (loc : Location),
        charsAndLocation ('\r' :: '\n' :: rest) loc =
          ('\n', loc) :: charsAndLocation rest ⟨loc.line + 1, 0⟩)
  ∧ (∀ (rest : List Char) (loc : Location),
        charsAndLocation ('\n' :: '\r' :: rest) loc =
          ('\n', loc) :: charsAndLocation rest ⟨loc.line + 1, 0⟩)
  ∧ (∀ (rest : List Char) (loc : Location), rest.head? ≠ some '\r' →
        charsAndLocation ('\n' :: rest) loc =
          ('\n', loc) :: charsAndLocation rest ⟨loc.line + 1, 0⟩)
  ∧ (∀ (rest : List Char) (loc : Location), rest.head? ≠ some '\n' →
        charsAndLocation ('\r' :: rest) loc =
          ('\n', loc) :: charsAndLocation rest ⟨loc.line + 1, 0⟩)
  ∧ (∀ (c : Char) (rest : List Char) (loc : Location), c ≠ '\n' → c ≠ '\r' →
        charsAndLocation (c :: rest) loc =
          (c, loc) :: charsAndLocation rest ⟨loc.line, loc.pos + 1⟩)
  ∧ (∀ (input : List Char) (loc : Location),
        List.Chain' locStep (charsAndLocation input loc))
  ∧ (∀ (input : List Char) (loc : Location) (u : CharLoc),
        (charsAndLocation input loc).head? = some u → u.2 = loc) :=
  ⟨fun _ _ => rfl, fun _ _ => rfl, charsAndLocation_lf, charsAndLocation_cr,
    charsAndLocation_other, charsAndLocation_chain, charsAndLocation_head_loc⟩

/-- Witness for C5 at concrete inputs: a lone LF and a non-newline unit. -/
theorem spec_c5_witness :
    charsAndLocation ['\n', 'x'] ⟨1, 0⟩ = ('\n', ⟨1, 0⟩) :: charsAndLocation ['x'] ⟨2, 0⟩ ∧
    charsAndLocation ['x', '\r'] ⟨1, 5⟩ = ('x', ⟨1, 5⟩) :: charsAndLocation ['\r'] ⟨1, 6⟩ :=
  ⟨spec_c5.2.2.1 ['x'] ⟨1, 0⟩ (by decide),
   spec_c5.2.2.2.2.1 'x' ['\r'] ⟨1, 5⟩ (by decide) (by decide)⟩

/-! Helper lemmas about the Line-splicer and the comment sentinel. -/

theorem charsAndLocation_no_cr (input : List Char) (loc : Location) (u : CharLoc)
    (h : u ∈ charsAndLocation input loc) : u.1 ≠ '\r' := by
  induction input, loc using charsAndLocation.induct with
  | case1 loc => simp [charsAndLocation] at h
  | case2 rest loc ih =>
    rw [charsAndLocation] at h
    rcases List.mem_cons.1 h with h1 | h1
    · subst h1; simp
    · exact ih h1
  | case3 rest loc hno ih =>
    rw [charsAndLocation_lf rest loc (by cases rest with
      | nil => simp
      | cons a l => simpa using fun hr => hno l (by simp [hr]))] at h
    rcases List.mem_cons.1 h with h1 | h1
    · subst h1; simp
    · exact ih h1
  | case4 rest loc ih =>
    rw [charsAndLocation] at h
    rcases List.mem_cons.1 h with h1 | h1
    · subst h1; simp
    · exact ih h1
  | case5 rest loc hno ih =>
    rw [charsAndLocation_cr rest loc (by cases rest with
      | nil => simp
      | cons a l => simpa using fun hr => hno l (by simp [hr]))] at h
    rcases List.mem_cons.1 h with h1 | h1
    · subst h1; simp
    · exact ih h1
  | case6 c rest loc h1 h2 h3 h4 ih =>
    rw [charsAndLocation_other c rest loc (fun hc => h2 hc) (fun hc => h4 hc)] at h
    rcases List.mem_cons.1 h with hh | hh
    · subst hh; exact fun hc => h4 hc
    · exact ih hh

theorem skipBackslashNewline_cons_of (u : CharLoc) (rest : List CharLoc)
    (h : u.1 ≠ '\\' ∨ ∀ v ∈ rest.head?, v.1 ≠ '\n') :
    skipBackslashNewline (u :: rest) = u :: skipBackslashNewline rest := by
  rw [skipBackslashNewline.eq_def]
  split
  · rename_i heq
    simp at heq
  · rename_i l l' r heq
    injection heq with h1 h2
    rcases h with h | h
    · exact absurd (by rw [h1]) h
    · subst h2
      exact absurd rfl (h ('\n', l') (by simp))
  · rename_i hno heq
    injection heq with h1 h2
    subst h1
    subst h2
    rfl

theorem skipBackslashNewline_sublist (xs : List CharLoc) :
    List.Sublist (skipBackslashNewline xs) xs := by
  induction xs using skipBackslashNewline.induct with
  | case1 => simp [skipBackslashNewline]
  | case2 l l' rest ih =>
    rw [skipBackslashNewline]
    exact ih.trans ((List.sublist_cons_self _ _).trans (List.sublist_cons_self _ _))
  | case3 u rest h ih =>
    rw [skipBackslashNewline_cons_of u rest ?_]
    · exact ih.cons₂ _
    · obtain ⟨c, l⟩ := u
      by_cases hc : c = '\\'
      · subst hc
        refine Or.inr fun v hv hvn => ?_
        cases rest with
        | nil => simp at hv
        | cons w r =>
          obtain ⟨d, l2⟩ := w
          simp at hv
          subst hv
          simp at hvn
          exact h l l2 r rfl (by simp [hvn])
      · exact Or.inl hc

/-- C10: no carriage-return unit survives the Normalizer, the Line-splicer
only deletes units, so the stream that reaches ReplaceComments never holds
the comment sentinel value, and the assertion in ReplaceComments::next can
never fire: the sentinel cannot collide with a real input character. -/
theorem spec_c10 :
    (∀ (input : List Char) (loc : Location) (u : CharLoc),
        u ∈ charsAndLocation input loc → u.1 ≠ '\r')
  ∧ (∀ xs : List CharLoc, List.Sublist (skipBackslashNewline xs) xs)
  ∧ (∀ (input : List Char) (loc : Location) (u : CharLoc),
        u ∈ skipBackslashNewline (charsAndLocation input loc) →
          u.1 ≠ COMMENT_SENTINEL_VALUE) :=
  ⟨charsAndLocation_no_cr, skipBackslashNewline_sublist,
    fun input loc u h =>
      charsAndLocation_no_cr input loc u
        ((skipBackslashNewline_sublist (charsAndLocation input loc)).subset h)⟩

/-- Witness for C10 at a concrete input containing backslashes and CRs. -/
theorem spec_c10_witness :
    (('a', (⟨2, 0⟩ : Location)) : CharLoc).1 ≠ COMMENT_SENTINEL_VALUE :=
  spec_c10.2.2 ['x', '\r', 'a'] ⟨1, 0⟩ ('a', ⟨2, 0⟩) (by decide)

/-- C7: every backslash immediately followed by a normalized newline is
deleted (also across arbitrarily many consecutive pairs), a backslash not
followed by a newline passes through unchanged, and the two-line input
`ab\<newline>c` lexes to exactly the same token stream as `abc`: a single
identifier `abc` followed by the synthesized NewLine. -/
theorem spec_c7 :
    (∀ (l l' : Location) (rest : List CharLoc),
        skipBackslashNewline (('\\', l) :: ('\n', l') :: rest) = skipBackslashNewline rest)
  ∧ (∀ (ps : List (Location × Location)) (rest : List CharLoc),
        skipBackslashNewline (contPairs ps rest) = skipBackslashNewline rest)
  ∧ (∀ (l : Location) (rest : List CharLoc), (∀ v ∈ rest.head?, v.1 ≠ '\n') →
        skipBackslashNewline (('\\', l) :: rest) = ('\\', l) :: skipBackslashNewline rest)
  ∧ lexString ['a', 'b', '\\', '\n', 'c'] = lexString ['a', 'b', 'c']
  ∧ lexString ['a', 'b', '\\', '\n', 'c'] =
      [.ok { value := .Ident ['a', 'b', 'c'], location := ⟨1, 0⟩,
             leading_whitespace := true, start_of_line := true },
       .ok { value := .NewLine, location := ⟨1, 1⟩,
             leading_whitespace := false, start_of_line := false }] := by
  refine ⟨fun _ _ _ => rfl, ?_, ?_, by decide, by decide⟩
  · intro ps
    induction ps with
    | nil => intro rest; rfl
    | cons p ps ih =>
      intro rest
      obtain ⟨a, b⟩ := p
      rw [contPairs, skipBackslashNewline, ih]
  · exact fun l rest h => skipBackslashNewline_cons_of ('\\', l) rest (Or.inr h)

/-- Witness for C7: the backslash-at-end-of-stream pass-through case. -/
theorem spec_c7_witness :
    skipBackslashNewline [(('\\' : Char), (⟨1, 0⟩ : Location))] =
      [(('\\' : Char), (⟨1, 0⟩ : Location))] := by
  have h := spec_c7.2.2.1 ⟨1, 0⟩ []
    (by intro v hv; simp at hv)
  rw [h, skipBackslashNewline]

/-- C6 (behavior of the code at the failing input): for the input `///x` the
recursive lookahead of ReplaceComments::next classifies the trailing `//x` as
the comment, emits the first `/` as a real character (a Slash token at column
0) and only then a sentinel — instead of one sentinel replacing the whole
`//` comment that starts at column 0.  The block-comment example of the
claim, `/*<newline><newline>*/x`, does hold: a single identifier `x` at line
3. -/
theorem spec_c6_bug_eval :
    replaceComments (skipBackslashNewline (charsAndLocation ['/', '/', '/', 'x'] ⟨1, 0⟩)) =
      [('/', ⟨1, 0⟩), (COMMENT_SENTINEL_VALUE, ⟨1, 1⟩)]
  ∧ lexString ['/', '/', '/', 'x'] =
      [.ok { value := .Punct .Slash, location := ⟨1, 0⟩,
             leading_whitespace := true, start_of_line := true },
       .ok { value := .NewLine, location := ⟨1, 1⟩,
             leading_whitespace := true, start_of_line := false }]
  ∧ lexString ['/', '*', '\n', '\n', '*', '/', 'x'] =
      [.ok { value := .Ident ['x'], location := ⟨3, 2⟩,
             leading_whitespace := true, start_of_line := true },
       .ok { value := .NewLine, location := ⟨3, 3⟩,
             leading_whitespace := false, start_of_line := false }] :=
  ⟨by decide, by decide, by decide⟩

/-- C9 (behavior of the code at the failing input): for `a @ b` the
unmatched-punctuation path of Lexer::parse_punctuation does not restore its
snapshot, so the probe consumes `@`, the space and `b`; the stream yields
identifier `a`, the UnexpectedCharacter error at the `@`, and then only the
synthesized NewLine — identifier `b` is silently swallowed and never
yielded. -/
theorem spec_c9_bug_eval :
    lexString ['a', ' ', '@', ' ', 'b'] =
      [.ok { value := .Ident ['a'], location := ⟨1, 0⟩,
             leading_whitespace := true, start_of_line := true },
       .error (.UnexpectedCharacter, ⟨1, 2⟩),
       .ok { value := .NewLine, location := ⟨1, 3⟩,
             leading_whitespace := false, start_of_line := false }] := by
  decide

/-- C1 counterexample: after the NotSupported64BitLiteral error for `1L` the
`L` is re-scanned as the start of the next token, which is the identifier
`L` — contradicting the claim that the `L` is consumed by the erroring
literal. -/
theorem spec_c1_counterexample :
    (lexString ['1', 'L'])[1]? =
      some (.ok { value := .Ident ['L'], location := ⟨1, 1⟩,
                  leading_whitespace := false, start_of_line := false }) := by
  decide

/-- C1 amended: for `1L` the lexer emits the NotSupported64BitLiteral error
at the literal's start; the width-suffix parser only peeks at the `l`/`L`,
leaving it in the stream, so lexing resumes AT the `L`, which becomes the
identifier `L`, followed by the synthesized NewLine. -/
theorem spec_c1_amended :
    (∀ (l : Location) (rest : List CharLoc),
        Lexer.parse_integer_width_suffix (('L', l) :: rest) =
          .error .NotSupported64BitLiteral)
  ∧ (∀ (l : Location) (rest : List CharLoc),
        Lexer.parse_integer_width_suffix (('l', l) :: rest) =
          .error .NotSupported64BitLiteral)
  ∧ Lexer.parse_number '1' [(('L' : Char), (⟨1, 1⟩ : Location))] =
      (.error .NotSupported64BitLiteral, [(('L' : Char), (⟨1, 1⟩ : Location))])
  ∧ lexString ['1', 'L'] =
      [.error (.NotSupported64BitLiteral, ⟨1, 0⟩),
       .ok { value := .Ident ['L'], location := ⟨1, 1⟩,
             leading_whitespace := false, start_of_line := false },
       .ok { value := .NewLine, location := ⟨1, 2⟩,
             leading_whitespace := false, start_of_line := false }] :=
  ⟨fun _ _ => rfl, fun _ _ => rfl, by decide, by decide⟩

/-! Helper lemmas for C4: end-of-input behaviour of Lexer::next. -/

theorem lexerNextAux_ws_none_iff (inner : List CharLoc) (lw sol : Bool)
    (ll : Location) (hcm : Bool) (h : ∀ u ∈ inner, isSkipWs u.1 = true) :
    (Lexer.nextAux inner lw sol ll hcm = none ↔ sol = true) := by
  induction inner generalizing lw hcm with
  | nil =>
    cases sol <;> simp [Lexer.nextAux]
  | cons u rest ih =>
    obtain ⟨c, loc⟩ := u
    have hcs : isSkipWs c = true := h (c, loc) (by simp)
    rw [Lexer.nextAux.eq_def]
    simp only [hcs, if_true]
    exact ih true _ (fun v hv => h v (by simp [hv]))

theorem lexerNextAux_ws_some (inner : List CharLoc) (lw sol : Bool)
    (ll : Location) (hcm : Bool) (item : LexerItem) (st' : Lexer)
    (h : ∀ u ∈ inner, isSkipWs u.1 = true)
    (hs : Lexer.nextAux inner lw sol ll hcm = some (item, st')) :
    (∃ t, item = .ok t ∧ t.value = .NewLine ∧ t.start_of_line = false) ∧
      Lexer.next st' = none := by
  induction inner generalizing lw hcm with
  | nil =>
    cases sol with
    | true => simp [Lexer.nextAux] at hs
    | false =>
      rw [Lexer.nextAux.eq_def] at hs
      simp only [Bool.false_eq_true, if_false, Option.some.injEq, Prod.mk.injEq] at hs
      obtain ⟨hitem, hst⟩ := hs
      subst hitem
      subst hst
      exact ⟨⟨_, rfl, rfl, rfl⟩, rfl⟩
  | cons u rest ih =>
    obtain ⟨c, loc⟩ := u
    have hcs : isSkipWs c = true := h (c, loc) (by simp)
    rw [Lexer.nextAux.eq_def] at hs
    simp only [hcs, if_true] at hs
    exact ih true _ (fun v hv => h v (by simp [hv])) hs

/-- C4 counterexample: the all-whitespace input `" "` produces no token at
all — in particular no synthesized trailing NewLine, although the last unit
emitted by the character pipeline (the space) is not a newline. -/
theorem spec_c4_counterexample : lexString [' '] = [] := by decide

/-- C4 amended: at end of input the Lexer synthesizes exactly one trailing
NewLine if and only if `start_of_line` is false, i.e. some token has been
produced since the last NewLine; trailing pure whitespace does not change
this.  So `x` and `x ` yield the identifier then exactly one NewLine, `x\n`
gains no extra NewLine, and `" "` yields nothing at all. -/
theorem spec_c4_amended :
    (∀ (inner : List CharLoc) (lw sol : Bool) (ll : Location) (hcm : Bool),
        (∀ u ∈ inner, isSkipWs u.1 = true) →
          (Lexer.nextAux inner lw sol ll hcm = none ↔ sol = true))
  ∧ (∀ (inner : List CharLoc) (lw sol : Bool) (ll : Location) (hcm : Bool)
        (item : LexerItem) (st' : Lexer),
        (∀ u ∈ inner, isSkipWs u.1 = true) →
          Lexer.nextAux inner lw sol ll hcm = some (item, st') →
            (∃ t, item = .ok t ∧ t.value = .NewLine ∧ t.start_of_line = false) ∧
              Lexer.next st' = none)
  ∧ lexString ['x'] =
      [.ok { value := .Ident ['x'], location := ⟨1, 0⟩,
             leading_whitespace := true, start_of_line := true },
       .ok { value := .NewLine, location := ⟨1, 1⟩,
             leading_whitespace := false, start_of_line := false }]
  ∧ lexString ['x', ' '] =
      [.ok { value := .Ident ['x'], location := ⟨1, 0⟩,
             leading_whitespace := true, start_of_line := true },
       .ok { value := .NewLine, location := ⟨1, 1⟩,
             leading_whitespace := true, start_of_line := false }]
  ∧ lexString ['x', '\n'] =
      [.ok { value := .Ident ['x'], location := ⟨1, 0⟩,
             leading_whitespace := true, start_of_line := true },
       .ok { value := .NewLine, location := ⟨1, 1⟩,
             leading_whitespace := false, start_of_line := false }]
  ∧ lexString [' '] = [] :=
  ⟨fun inner lw sol ll hcm h => lexerNextAux_ws_none_iff inner lw sol ll hcm h,
   fun inner lw sol ll hcm item st' h hs =>
     lexerNextAux_ws_some inner lw sol ll hcm item st' h hs,
   by decide, by decide, by decide, by decide⟩

/-- Witness for C4 at the empty stream with `start_of_line = false`: exactly
one NewLine is produced and the following call yields none. -/
theorem spec_c4_witness :
    (∃ t, (.ok { value := .NewLine, location := ⟨0, 1⟩, leading_whitespace := true,
                 start_of_line := false } : LexerItem) = .ok t ∧
        t.value = .NewLine ∧ t.start_of_line = false) ∧
      Lexer.next { inner := [], leading_whitespace := true, start_of_line := true,
                   last_location := ⟨0, 1⟩, had_comments := false } = none :=
  spec_c4_amended.2.1 [] true false ⟨0, 0⟩ false
    (.ok { value := .NewLine, location := ⟨0, 1⟩, leading_whitespace := true,
           start_of_line := false })
    { inner := [], leading_whitespace := true, start_of_line := true,
      last_location := ⟨0, 1⟩, had_comments := false }
    (by intro u hu; simp at hu) (by decide)

/-! Helper lemma for C2: where the leading_whitespace flag of a token comes
from. -/

theorem lexerNextAux_ok_leading_ws (inner : List CharLoc) (lw sol : Bool)
    (ll : Location) (hcm : Bool) (t : Token) (st' : Lexer)
    (h : Lexer.nextAux inner lw sol ll hcm = some (.ok t, st')) :
    t.leading_whitespace =
      (lw || !(inner.takeWhile (fun u => isSkipWs u.1)).isEmpty) := by
  induction inner generalizing lw hcm with
  | nil =>
    cases sol with
    | true => simp [Lexer.nextAux] at h
    | false =>
      rw [Lexer.nextAux.eq_def] at h
      simp only [Bool.false_eq_true, if_false, Option.some.injEq, Prod.mk.injEq] at h
      obtain ⟨hitem, -⟩ := h
      have ht : t.leading_whitespace = lw := by
        have := congrArg (fun it : LexerItem =>
          match it with
          | .ok tok => tok.leading_whitespace
          | .error _ => false) hitem
        simpa using this.symm
      simp [ht]
  | cons u rest ih =>
    obtain ⟨c, loc⟩ := u
    by_cases hws : isSkipWs c = true
    · rw [Lexer.nextAux.eq_def] at h
      simp only [hws, if_true] at h
      have := ih true _ h
      simp [this, List.takeWhile_cons, hws]
    · rw [Lexer.nextAux.eq_def] at h
      simp only [hws, if_false, Bool.false_eq_true] at h
      have hgoal : t.leading_whitespace = lw := by
        by_cases hnl : c = '\n'
        · simp only [hnl, if_true] at h
          simp only [Option.some.injEq, Prod.mk.injEq] at h
          obtain ⟨hitem, -⟩ := h
          have := congrArg (fun it : LexerItem =>
            match it with
            | .ok tok => tok.leading_whitespace
            | .error _ => true) hitem
          simpa using this.symm
        · simp only [hnl, if_false] at h
          split at h
          · simp only [Option.some.injEq, Prod.mk.injEq] at h
            obtain ⟨hitem, -⟩ := h
            have := congrArg (fun it : LexerItem =>
              match it with
              | .ok tok => tok.leading_whitespace
              | .error _ => true) hitem
            simpa using this.symm
          · simp at h
      simp [hgoal, List.takeWhile_cons, hws]

/-- C2 counterexample: the first token of the input `x` carries
`leading_whitespace = true` although nothing precedes it, because the flag
is seeded true at stream start — the claim says it should be false. -/
theorem spec_c2_counterexample :
    (lexString ['x'])[0]? =
      some (.ok { value := .Ident ['x'], location := ⟨1, 0⟩,
                  leading_whitespace := true, start_of_line := true }) := by
  decide

/-- C2 amended: a token's `leading_whitespace` is the carried flag at the
start of the call OR'ed with whether any whitespace/comment-sentinel units
were skipped directly before the token; since the flag is seeded true, the
FIRST token of every input has `leading_whitespace = true` (so the claimed
iff holds for interior tokens separated by real whitespace, but not for the
first token, nor after a NewLine which re-seeds the flag). -/
theorem spec_c2_amended :
    (∀ (inner : List CharLoc) (lw sol : Bool) (ll : Location) (hcm : Bool)
        (t : Token) (st' : Lexer),
        Lexer.nextAux inner lw sol ll hcm = some (.ok t, st') →
          t.leading_whitespace =
            (lw || !(inner.takeWhile (fun u => isSkipWs u.1)).isEmpty))
  ∧ (∀ (input : List Char) (t : Token) (st' : Lexer),
        Lexer.next (Lexer.new input) = some (.ok t, st') →
          t.leading_whitespace = true)
  ∧ lexString ['a', ';', 'b'] =
      [.ok { value := .Ident ['a'], location := ⟨1, 0⟩,
             leading_whitespace := true, start_of_line := true },
       .ok { value := .Punct .Semicolon, location := ⟨1, 1⟩,
             leading_whitespace := false, start_of_line := false },
       .ok { value := .Ident ['b'], location := ⟨1, 2⟩,
             leading_whitespace := false, start_of_line := false },
       .ok { value := .NewLine, location := ⟨1, 3⟩,
             leading_whitespace := false, start_of_line := false }]
  ∧ lexString ['a', ' ', 'b'] =
      [.ok { value := .Ident ['a'], location := ⟨1, 0⟩,
             leading_whitespace := true, start_of_line := true },
       .ok { value := .Ident ['b'], location := ⟨1, 2⟩,
             leading_whitespace := true, start_of_line := false },
       .ok { value := .NewLine, location := ⟨1, 3⟩,
             leading_whitespace := false, start_of_line := false }] := by
  refine ⟨lexerNextAux_ok_leading_ws, ?_, by decide, by decide⟩
  intro input t st' h
  have := lexerNextAux_ok_leading_ws _ _ _ _ _ _ _ h
  simpa using this

/-- Witness for C2: a token preceded by no whitespace with the carried flag
false really gets `leading_whitespace = false`. -/
theorem spec_c2_witness :
    ({ value := .Ident ['x'], location := ⟨1, 0⟩, leading_whitespace := false,
       start_of_line := false } : Token).leading_whitespace =
      (false ||
        !(([(('x' : Char), (⟨1, 0⟩ : Location))].takeWhile
            (fun u => isSkipWs u.1))).isEmpty) :=
  spec_c2_amended.1 [(('x' : Char), (⟨1, 0⟩ : Location))] false false ⟨0, 0⟩ false
    { value := .Ident ['x'], location := ⟨1, 0⟩, leading_whitespace := false,
      start_of_line := false }
    { inner := [], leading_whitespace := false, start_of_line := false,
      last_location := ⟨1, 0⟩, had_comments := false }
    (by decide)

/-! Helper lemmas for C3: when exactly the checked u64 conversion fails. -/

theorem foldDigits_le (radix : Nat) (hr : 1 ≤ radix) (s : List Char) (acc : Nat) :
    acc ≤ s.foldl (fun a c => a * radix + (rustToDigit c radix).getD 0) acc := by
  induction s generalizing acc with
  | nil => simp
  | cons c rest ih =>
    simp only [List.foldl_cons]
    refine le_trans ?_ (ih _)
    calc acc = acc * 1 := by omega
      _ ≤ acc * radix := Nat.mul_le_mul_left acc hr
      _ ≤ acc * radix + (rustToDigit c radix).getD 0 := Nat.le_add_right _ _

theorem fromStrRadixGo_none_iff (radix : Nat) (hr : 1 ≤ radix) (s : List Char)
    (acc : Nat) (hacc : acc < 2 ^ 64) :
    (fromStrRadixGo radix s acc = none ↔
      (∃ c ∈ s, rustToDigit c radix = none) ∨
        2 ^ 64 ≤ s.foldl (fun a c => a * radix + (rustToDigit c radix).getD 0) acc) := by
  induction s generalizing acc with
  | nil =>
    simp only [fromStrRadixGo, List.foldl_nil]
    simp only [List.not_mem_nil, false_and, exists_false, false_or]
    constructor
    · intro hcon
      exact absurd hcon (by simp)
    · omega
  | cons c rest ih =>
    simp only [fromStrRadixGo]
    cases hd : rustToDigit c radix with
    | none =>
      simp [hd]
    | some d =>
      simp only []
      by_cases hv : acc * radix + d < 2 ^ 64
      · rw [if_pos hv, ih _ hv]
        simp [hd]
      · rw [if_neg hv]
        have hge : 2 ^ 64 ≤
            rest.foldl (fun a c => a * radix + (rustToDigit c radix).getD 0)
              (acc * radix + d) :=
          le_trans (by omega) (foldDigits_le radix hr rest _)
        simp [hd]
        right
        simpa using hge

theorem from_str_radix_none_iff (radix : Nat) (hr : 1 ≤ radix) (s : List Char) :
    (from_str_radix s radix = none ↔
      s = [] ∨ (∃ c ∈ s, rustToDigit c radix = none) ∨
        2 ^ 64 ≤ digitsValue radix s) := by
  by_cases hs : s = []
  · subst hs
    simp [from_str_radix]
  · rw [from_str_radix, if_neg hs,
      fromStrRadixGo_none_iff radix hr s 0 (by norm_num)]
    simp [digitsValue, hs]

/-- C3 counterexample: the octal-looking literal `08`, whose digit-sequence
value (8) easily fits in u64, still lexes to an IntegerOverflow error,
because '8' is not a valid digit for the selected radix 8 and every
conversion failure is mapped to IntegerOverflow. -/
theorem spec_c3_counterexample :
    lexString ['0', '8'] =
      [.error (.IntegerOverflow, ⟨1, 0⟩),
       .ok { value := .NewLine, location := ⟨1, 1⟩,
             leading_whitespace := false, start_of_line := false }] := by
  decide

/-- C3 amended: IntegerOverflow is returned exactly when the u64 radix
conversion of the consumed digit string fails — when the string is empty
(as for `0x`), when it holds a digit invalid for the selected radix (as for
the '8' of `08` in radix 8), or when the value exceeds the 64-bit unsigned
range; a decimal literal of value up to 2^64 - 1 succeeds. -/
theorem spec_c3_amended :
    (∀ (radix : Nat) (s : List Char), 1 ≤ radix →
        (from_str_radix s radix = none ↔
          s = [] ∨ (∃ c ∈ s, rustToDigit c radix = none) ∨
            2 ^ 64 ≤ digitsValue radix s))
  ∧ lexString ['0', '8'] =
      [.error (.IntegerOverflow, ⟨1, 0⟩),
       .ok { value := .NewLine, location := ⟨1, 1⟩,
             leading_whitespace := false, start_of_line := false }]
  ∧ lexString ['0', 'x'] =
      [.error (.IntegerOverflow, ⟨1, 0⟩),
       .ok { value := .NewLine, location := ⟨1, 1⟩,
             leading_whitespace := false, start_of_line := false }]
  ∧ lexString ['1', '8', '4', '4', '6', '7', '4', '4', '0', '7', '3', '7',
               '0', '9', '5', '5', '1', '6', '1', '6'] =
      [.error (.IntegerOverflow, ⟨1, 0⟩),
       .ok { value := .NewLine, location := ⟨1, 1⟩,
             leading_whitespace := false, start_of_line := false }]
  ∧ lexString ['1', '8', '4', '4', '6', '7', '4', '4', '0', '7', '3', '7',
               '0', '9', '5', '5', '1', '6', '1', '5'] =
      [.ok { value := .Integer { value := 18446744073709551615, signed := true,
                                 width := 32 },
             location := ⟨1, 0⟩, leading_whitespace := true, start_of_line := true },
       .ok { value := .NewLine, location := ⟨1, 1⟩,
             leading_whitespace := false, start_of_line := false }] :=
  ⟨fun radix s hr => from_str_radix_none_iff radix hr s,
   by decide, by decide, by decide, by decide⟩

/-- Witness for C3 at radix 8 and the digit string `8`. -/
theorem spec_c3_witness :
    from_str_radix ['8'] 8 = none ↔
      ['8'] = [] ∨ (∃ c ∈ ['8'], rustToDigit c 8 = none) ∨
        2 ^ 64 ≤ digitsValue 8 ['8'] :=
  spec_c3_amended.1 8 ['8'] (by omega)

theorem maybe_punct_sound (c0 c1 c2 : Char) (p : Punct) (n : Nat)
    (h : maybe_punct c0 c1 c2 = some (p, n)) :
    punctChars p <+: [c0, c1, c2] ∧ (punctChars p).length = n ∧ 1 ≤ n := by
  unfold maybe_punct at h
  split at h <;>
    first
      | exact Option.noConfusion h
      | (injection h with h'
         injection h' with hp hn
         subst hp
         subst hn
         exact ⟨by simp [punctChars, List.cons_prefix_cons], rfl, by omega⟩)

theorem maybe_punct_lead_total (c0 c1 c2 : Char)
    (h : c0 ∈ (['<', '>', '+', '-', '&', '|', '^', '=', '!', '*', '/', '%',
                '(', ')', '\x7b', '\x7d', '[', ']', '.', ',', ';', ':', '~', '?'] :
        List Char)) :
    maybe_punct c0 c1 c2 ≠ none := by
  unfold maybe_punct
  split <;> simp_all


theorem maybe_punct_max (c0 c1 c2 : Char) (q : Punct)
    (hq : punctChars q <+: [c0, c1, c2]) :
    ∃ p n, maybe_punct c0 c1 c2 = some (p, n) ∧ (punctChars q).length ≤ n := by
  have onechar : ∀ c0' c1' c2' : Char,
      maybe_punct c0' c1' c2' ≠ none →
        ∃ p n, maybe_punct c0' c1' c2' = some (p, n) ∧ 1 ≤ n := by
    intro c0' c1' c2' hne
    obtain ⟨⟨p, n⟩, hp⟩ := Option.ne_none_iff_exists.1 hne
    exact ⟨p, n, hp.symm, (maybe_punct_sound _ _ _ _ _ hp.symm).2.2⟩
  cases q <;>
    first
      | (obtain ⟨h0, h1, h2⟩ := by
           simpa [punctChars, List.cons_prefix_cons] using hq
         subst h0; subst h1; subst h2
         exact ⟨_, 3, rfl, by decide⟩)
      | (obtain ⟨h0, h1⟩ := by
           simpa [punctChars, List.cons_prefix_cons] using hq
         subst h0; subst h1
         exact ⟨_, 2, rfl, by decide⟩)
      | (obtain ⟨h0, h1⟩ := by
           simpa [punctChars, List.cons_prefix_cons] using hq
         subst h0; subst h1
         by_cases h2 : c2 = '='
         · subst h2
           exact ⟨.LeftShiftAssign, 3, rfl, by decide⟩
         · exact ⟨.LeftShift, 2, by simp [maybe_punct, h2], by decide⟩)
      | (obtain ⟨h0, h1⟩ := by
           simpa [punctChars, List.cons_prefix_cons] using hq
         subst h0; subst h1
         by_cases h2 : c2 = '='
         · subst h2
           exact ⟨.RightShiftAssign, 3, rfl, by decide⟩
         · exact ⟨.RightShift, 2, by simp [maybe_punct, h2], by decide⟩)
      | (obtain h0 := by
           simpa [punctChars, List.cons_prefix_cons] using hq
         obtain ⟨p, n, hp, h1n⟩ :=
           onechar c0 c1 c2 (maybe_punct_lead_total c0 c1 c2 (by rw [← h0]; decide))
         exact ⟨p, n, hp, by simpa [punctChars] using h1n⟩)

/-- C8: punctuation matching is maximal munch over the fixed priority table:
whatever the table returns spells a prefix of the three probed characters,
any table symbol that is a prefix of the probed characters is matched with
at least its length, exactly the matched length is consumed from the
stream, and `<<=` lexes as the single LeftShiftAssign token (never as `<`
then `<=`, nor `<<` then `=`). -/
theorem spec_c8 :
    lexString ['<', '<', '='] =
      [.ok { value := .Punct .LeftShiftAssign, location := ⟨1, 0⟩,
             leading_whitespace := true, start_of_line := true },
       .ok { value := .NewLine, location := ⟨1, 1⟩,
             leading_whitespace := false, start_of_line := false }]
  ∧ (∀ (c0 c1 c2 : Char) (p : Punct) (n : Nat),
        maybe_punct c0 c1 c2 = some (p, n) →
          punctChars p <+: [c0, c1, c2] ∧ (punctChars p).length = n ∧ 1 ≤ n)
  ∧ (∀ (c0 c1 c2 : Char) (q : Punct),
        punctChars q <+: [c0, c1, c2] →
          ∃ p n, maybe_punct c0 c1 c2 = some (p, n) ∧ (punctChars q).length ≤ n)
  ∧ (∀ (xs : List CharLoc) (p : Punct) (n : Nat),
        maybe_punct (punctProbe xs 0) (punctProbe xs 1) (punctProbe xs 2) =
            some (p, n) →
          Lexer.parse_punctuation xs = (.ok (.Punct p), xs.drop n)) := by
  refine ⟨by decide, maybe_punct_sound, maybe_punct_max, ?_⟩
  intro xs p n h
  simp only [Lexer.parse_punctuation, h]

/-- Witness for C8: at the probe characters of `<<=`, the 2-character symbol
`<<` is a prefix but the match returns at least its length — in fact the
3-character LeftShiftAssign. -/
theorem spec_c8_witness :
    ∃ p n, maybe_punct '<' '<' '=' = some (p, n) ∧
      (punctChars .LeftShift).length ≤ n :=
  spec_c8.2.2.1 '<' '<' '=' .LeftShift (by decide)

/-! Adequacy of the fuelled drivers: every call of Lexer::next consumes
input or flips `start_of_line`, so the fuel used by `lexList` always
suffices and `lexList` really is the full iteration of `Lexer.next`. -/

theorem consume_chars_length_le (f : Char → Bool) (xs : List CharLoc) :
    (Lexer.consume_chars f xs).2.length ≤ xs.length := by
  induction xs with
  | nil => simp [Lexer.consume_chars]
  | cons u rest ih =>
    obtain ⟨c, l⟩ := u
    simp only [Lexer.consume_chars]
    split
    · exact le_trans ih (by simp)
    · simp

theorem parse_identifier_length_le (xs : List CharLoc) :
    (Lexer.parse_identifier xs).2.length ≤ xs.length := by
  induction xs with
  | nil => simp [Lexer.parse_identifier]
  | cons u rest ih =>
    obtain ⟨c, l⟩ := u
    simp only [Lexer.parse_identifier]
    split
    · exact le_trans ih (by simp)
    · simp

theorem parse_float_width_suffix_length_le (xs : List CharLoc) :
    (Lexer.parse_float_width_suffix xs).2.length ≤ xs.length := by
  unfold Lexer.parse_float_width_suffix
  split <;> simp

theorem parse_integer_signedness_suffix_length_le (xs : List CharLoc) :
    (Lexer.parse_integer_signedness_suffix xs).2.length ≤ xs.length := by
  unfold Lexer.parse_integer_signedness_suffix
  split <;> simp

theorem parse_number_radix_length_le (c : Char) (xs : List CharLoc) :
    (Lexer.parse_number_radix c xs).2.2.length ≤ xs.length := by
  unfold Lexer.parse_number_radix
  split
  · split
    · exact le_trans (consume_chars_length_le _ _) (by simp)
    · exact le_trans (consume_chars_length_le _ _) (by simp)
    · split <;> simp
    · simp
  · simp

theorem parse_number_dot_length_le (c : Char) (raw : List Char) (xs : List CharLoc) :
    (Lexer.parse_number_dot c raw xs).2.2.length ≤ xs.length := by
  unfold Lexer.parse_number_dot
  split
  all_goals simp only []
  · split
    · rename_i heq
      have hc := consume_chars_length_le isDigit xs
      rw [heq] at hc
      simp only [List.length_cons] at hc
      simp only []
      omega
    · exact consume_chars_length_le isDigit xs
  · simp

theorem parse_number_length_le (c : Char) (xs : List CharLoc) :
    (Lexer.parse_number c xs).2.length ≤ xs.length := by
  unfold Lexer.parse_number
  simp only []
  have hq := parse_number_radix_length_le c xs
  have ht := parse_number_dot_length_le c (Lexer.parse_number_radix c xs).2.1
    (Lexer.parse_number_radix c xs).2.2
  split
  · have hp := consume_chars_length_le isDigit
      (Lexer.parse_number_dot c (Lexer.parse_number_radix c xs).2.1
        (Lexer.parse_number_radix c xs).2.2).2.2
    split
    · rename_i e r heq
      have hw := parse_float_width_suffix_length_le
        (Lexer.consume_chars isDigit
          (Lexer.parse_number_dot c (Lexer.parse_number_radix c xs).2.1
            (Lexer.parse_number_radix c xs).2.2).2.2).2
      rw [heq] at hw
      simp only [] at hw ⊢
      omega
    · rename_i w r heq
      have hw := parse_float_width_suffix_length_le
        (Lexer.consume_chars isDigit
          (Lexer.parse_number_dot c (Lexer.parse_number_radix c xs).2.1
            (Lexer.parse_number_radix c xs).2.2).2.2).2
      rw [heq] at hw
      simp only [] at hw ⊢
      omega
  · have hs := parse_integer_signedness_suffix_length_le
      (Lexer.parse_number_dot c (Lexer.parse_number_radix c xs).2.1
        (Lexer.parse_number_radix c xs).2.2).2.2
    split
    · simp only []
      omega
    · split <;> simp only [] <;> omega

theorem maybe_punct_size_bounds (c0 c1 c2 : Char) (p : Punct) (n : Nat)
    (h : maybe_punct c0 c1 c2 = some (p, n)) : 1 ≤ n ∧ n ≤ 3 := by
  have hs := maybe_punct_sound c0 c1 c2 p n h
  have hlen : (punctChars p).length ≤ 3 := by
    have := hs.1.length_le
    simpa using this
  omega

theorem parse_punctuation_length_le (c : Char) (loc : Location)
    (rest : List CharLoc) :
    (Lexer.parse_punctuation ((c, loc) :: rest)).2.length ≤ rest.length := by
  unfold Lexer.parse_punctuation
  simp only []
  split
  · rename_i p n heq
    have := maybe_punct_size_bounds _ _ _ _ _ heq
    simp only [List.length_drop, List.length_cons]
    omega
  · split <;> simp

theorem tokenStep_length_le (c : Char) (loc : Location) (rest : List CharLoc) :
    (Lexer.tokenStep c loc rest).2.length ≤ rest.length := by
  unfold Lexer.tokenStep
  simp only []
  split
  · rename_i hid
    have hch : isIdentChar c = true := by simp [isIdentChar, hid]
    simp only [Lexer.parse_identifier, hch, if_true]
    exact parse_identifier_length_le rest
  · split
    · exact parse_number_length_le c rest
    · split
      · split
        · split
          · exact parse_number_length_le '.' _
          · simp
        · simp
      · exact parse_punctuation_length_le c loc rest

theorem lexerNextAux_measure (inner : List CharLoc) (lw sol : Bool)
    (ll : Location) (hcm : Bool) (item : LexerItem) (st' : Lexer)
    (h : Lexer.nextAux inner lw sol ll hcm = some (item, st')) :
    2 * st'.inner.length + (if st'.start_of_line then 0 else 1) <
      2 * inner.length + (if sol then 0 else 1) := by
  induction inner generalizing lw hcm with
  | nil =>
    cases sol with
    | true => simp [Lexer.nextAux] at h
    | false =>
      rw [Lexer.nextAux.eq_def] at h
      simp only [Bool.false_eq_true, if_false, Option.some.injEq, Prod.mk.injEq] at h
      obtain ⟨-, hst⟩ := h
      subst hst
      simp
  | cons u rest ih =>
    obtain ⟨c, loc⟩ := u
    rw [Lexer.nextAux.eq_def] at h
    by_cases hws : isSkipWs c = true
    · simp only [hws, if_true] at h
      have hm := ih true _ h
      cases sol <;> simp_all <;> omega
    · simp only [hws, if_false, Bool.false_eq_true] at h
      by_cases hnl : c = '\n'
      · simp only [hnl, if_true] at h
        simp only [Option.some.injEq, Prod.mk.injEq] at h
        obtain ⟨-, hst⟩ := h
        subst hst
        cases sol with
        | false => simp; omega
        | true => simp
      · simp only [hnl, if_false] at h
        simp only [Option.some.injEq, Prod.mk.injEq] at h
        obtain ⟨-, hst⟩ := h
        subst hst
        have hts := tokenStep_length_le c loc rest
        cases sol <;> simp <;> omega

theorem Lexer.next_measure (st st' : Lexer) (item : LexerItem)
    (h : Lexer.next st = some (item, st')) :
    lexMeasure st' < lexMeasure st :=
  lexerNextAux_measure st.inner st.leading_whitespace st.start_of_line
    st.last_location st.had_comments item st' h

theorem lexListF_congr (n : Nat) : ∀ (m : Nat) (st : Lexer),
    lexMeasure st ≤ n → lexMeasure st ≤ m → lexListF n st = lexListF m st := by
  induction n with
  | zero =>
    intro m st hn hm
    have hnone : Lexer.next st = none := by
      have hsol : st.start_of_line = true := by
        cases hs : st.start_of_line with
        | true => rfl
        | false => simp [lexMeasure, hs] at hn
      have hinner : st.inner = [] := by
        cases hi : st.inner with
        | nil => rfl
        | cons a l => simp [lexMeasure, hi] at hn
      rw [Lexer.next, hinner, hsol]
      simp [Lexer.nextAux]
    cases m with
    | zero => rfl
    | succ m => simp [lexListF, hnone]
  | succ n ih =>
    intro m st hn hm
    cases h : Lexer.next st with
    | none =>
      cases m with
      | zero => simp [lexListF, h]
      | succ m => simp [lexListF, h]
    | some pr =>
      obtain ⟨it, st'⟩ := pr
      have hlt := Lexer.next_measure st st' it h
      cases m with
      | zero => omega
      | succ m =>
        simp only [lexListF, h]
        rw [ih m st' (by omega) (by omega)]

/-- The fuelled `lexList` is the genuine unbounded iteration of
`Lexer.next`: it satisfies the iterator's unfolding equation. -/
theorem lexList_eq (st : Lexer) :
    lexList st =
      match Lexer.next st with
      | none => []
      | some (item, st') => item :: lexList st' := by
  unfold lexList
  cases h : Lexer.next st with
  | none =>
    cases hmu : lexMeasure st with
    | zero => simp [lexListF]
    | succ k => simp [lexListF, h]
  | some pr =>
    obtain ⟨item, st'⟩ := pr
    have hlt := Lexer.next_measure st st' item h
    have h1 : lexMeasure st = (lexMeasure st - 1) + 1 := by omega
    rw [h1]
    simp only [lexListF, h]
    rw [lexListF_congr (lexMeasure st - 1) (lexMeasure st') st' (by omega) le_rfl]

end Glslpp
